import Mathlib

/-!
Verification of the gorsn resource-scan-notifier library.

This file is a shallow embedding of the gorsn Go sources (event.go,
helpers.go, notifier.go, options.go, errors.go and the worker file) into
Lean, together with theorems settling the specification claims.

Modelling conventions:
- Go file modes (io/fs FileMode) are natural numbers; the named mode bits
  carry their real Go values, and the Type and Perm accessors are the real
  bit masks ModeType and ModePerm.
- The sync.Map path cache is an association list; store replaces any
  previous binding of the key.
- Channels and goroutine interleavings are not modelled: a pass is the
  sequential composition of the traversal filter, the per-entry worker
  body and the end-of-pass sweep, which is the observable behaviour of a
  completed pass (the workers drain the intake queue before the sweep).
- queueEvent drops the event when the notifier is not running, as the Go
  code does; the race against the stop channel is a shutdown-only case
  and is not modelled.
- A nil-interface method call in Go is a runtime panic; the worker body
  therefore returns an explicit panicked outcome where the Go code calls
  a method on the nil FileInfo returned by a failed DirEntry.Info.
-/

/-- Event kinds, from event.go. -/
inductive EventName
  | CREATE | MODIFY | DELETE | PERM | ERROR | NOCHANGE
deriving DecidableEq, Repr

/-- Path kinds, from event.go. -/
inductive PathType
  | FILE | DIR | SYMLINK | UNSUPPORTED
deriving DecidableEq, Repr

/-- Go io/fs.FileMode, a 32-bit flag word modelled as a natural number. -/
abbrev FileMode := Nat

def modeDir : FileMode := 2 ^ 31
def modeSymlink : FileMode := 2 ^ 27
def modeDevice : FileMode := 2 ^ 26
def modeNamedPipe : FileMode := 2 ^ 25
def modeSocket : FileMode := 2 ^ 24
def modeCharDevice : FileMode := 2 ^ 21
def modeIrregular : FileMode := 2 ^ 19

/-- Go io/fs.ModeType: the union of all type bits. -/
def modeTypeMask : FileMode :=
  modeDir ||| modeSymlink ||| modeNamedPipe ||| modeSocket |||
    modeDevice ||| modeCharDevice ||| modeIrregular

/-- Go io/fs.ModePerm, the nine permission bits. -/
def modePermMask : FileMode := 0o777

/-- Go FileMode.Type: keeps only the type bits. -/
def FileMode.typeBits (m : FileMode) : FileMode := m &&& modeTypeMask

/-- Go FileMode.Perm: keeps only the permission bits. -/
def FileMode.permBits (m : FileMode) : FileMode := m &&& modePermMask

/-- getPathType from helpers.go. -/
def getPathType (fm : FileMode) : PathType :=
  if fm &&& modeDir ≠ 0 then .DIR
  else if fm.typeBits = 0 then .FILE
  else if fm &&& modeSymlink ≠ 0 then .SYMLINK
  else .UNSUPPORTED

/-- Error codes, from errors.go. -/
inductive ErrorCode
  | ErrInternalError
  | ErrInvalidRootDirPath
  | ErrInitialization
  | ErrScanIsNotRunning
  | ErrScanAlreadyStarted
  | ErrScanIsStopping
  | ErrScanIsNotReady
  | ErrScanIsNotPaused
deriving DecidableEq, Repr

/-- An emitted event, from event.go. The error field carries the message
of the Go error attached to the event, if any. -/
structure Event where
  path : String
  type : PathType
  name : EventName
  error : Option String
deriving DecidableEq, Repr

/-- The per-event suppression flags of options.go (zero value: all false). -/
structure EventOps where
  ignoreErrors : Bool := false
  ignoreNoChange : Bool := false
  ignoreDelete : Bool := false
  ignoreCreate : Bool := false
  ignoreModify : Bool := false
  ignorePerm : Bool := false
  ignoreFile : Bool := false
  ignoreFolder : Bool := false
  ignoreSymlink : Bool := false
  ignoreFolderContent : Bool := false
deriving DecidableEq, Repr

/-- Options, from options.go. Regexes are modelled as match predicates on
the path string; a missing regex is none (Go nil). The atomic.Value scan
interval is none while unset, mirroring a nil atomic.Value. -/
structure Options where
  queueSize : Int := 0
  maxworkers : Nat := 0
  event : EventOps := {}
  scanInterval : Option Int := none
  excludePaths : Option (String → Bool) := none
  includePaths : Option (String → Bool) := none

def DEFAULT_QUEUE_SIZE : Int := 10
def DEFAULT_MAX_WORKERS : Nat := 1
def DEFAULT_SCAN_INTERVAL : Int := 1000000000

/-- defaultOpts from options.go. -/
def defaultOpts : Options :=
  { queueSize := DEFAULT_QUEUE_SIZE
    maxworkers := DEFAULT_MAX_WORKERS
    scanInterval := some DEFAULT_SCAN_INTERVAL
    excludePaths := none
    includePaths := none
    event := { ignoreNoChange := true } }

/-- Options.setup from options.go; the argument is none when the Go
receiver pointer is nil. -/
def Options.setup : Option Options → Options
  | none => defaultOpts
  | some o =>
    let o1 := if o.queueSize ≤ 0 then { o with queueSize := DEFAULT_QUEUE_SIZE } else o
    let o2 := if o1.maxworkers = 0 then { o1 with maxworkers := DEFAULT_MAX_WORKERS } else o1
    let o3 := if o2.scanInterval = none then { o2 with scanInterval := some DEFAULT_SCAN_INTERVAL } else o2
    { o3 with event := { o3.event with ignoreNoChange := true } }

/-- SetIgnoreNoChangeEvent from options.go (the Go method also returns the
receiver for chaining). -/
def Options.SetIgnoreNoChangeEvent (o : Options) (v : Bool) : Options :=
  { o with event := { o.event with ignoreNoChange := v } }

/-- The non-nil error values a WalkDir callback may return here:
filepath.SkipDir. -/
inductive WalkSignal
  | skipDir
deriving DecidableEq, Repr

/-- Whether the exclude regex is set and matches the path
(Go: excludePaths != nil && excludePaths.MatchString(s)). -/
def excludeHits (o : Options) (s : String) : Bool :=
  match o.excludePaths with
  | some re => re s
  | none => false

/-- Whether the include regex is set and does not match the path
(Go: includePaths != nil && !includePaths.MatchString(s)). -/
def includeMisses (o : Options) (s : String) : Bool :=
  match o.includePaths with
  | some re => !(re s)
  | none => false

/-- check from helpers.go. The err parameter is ignored by the Go body.
Returns the pair (ignore, error to hand back to WalkDir). -/
def check (o : Options) (root s : String) (t : PathType) (_err : Option String) :
    Bool × Option WalkSignal :=
  if t = .UNSUPPORTED then (true, none)
  else if s = root then (true, none)
  else if excludeHits o s then (true, none)
  else if includeMisses o s then (true, none)
  else if t = .FILE ∧ o.event.ignoreFile then (true, none)
  else if t = .DIR ∧ o.event.ignoreFolderContent then (true, some .skipDir)
  else if t = .DIR ∧ o.event.ignoreFolder then (true, none)
  else if t = .SYMLINK ∧ o.event.ignoreSymlink then (true, none)
  else (false, none)

/-- The three filter outcomes named by the specification. -/
inductive Decision
  | accept | skip | skipSubtree
deriving DecidableEq, Repr

/-- Modelled from the spec: classifyEntry, section 4.2, the nine-rule
first-match-wins cascade. This definition follows the words of the
specification; the theorem for claim C5 compares it with check, the
definition taken from the source. -/
def classifyEntry (o : Options) (root s : String) (t : PathType) : Decision :=
  if t = .UNSUPPORTED then .skip
  else if s = root then .skip
  else if excludeHits o s then .skip
  else if includeMisses o s then .skip
  else if t = .FILE ∧ o.event.ignoreFile then .skip
  else if t = .DIR ∧ o.event.ignoreFolderContent then .skipSubtree
  else if t = .DIR ∧ o.event.ignoreFolder then .skip
  else if t = .SYMLINK ∧ o.event.ignoreSymlink then .skip
  else .accept

/-- The decision encoded by the pair that check returns: not ignored is
accept, ignored with SkipDir is skip-subtree, ignored otherwise is skip. -/
def checkDecision (o : Options) (root s : String) (t : PathType) : Decision :=
  match check o root s t none with
  | (false, _) => .accept
  | (true, some .skipDir) => .skipSubtree
  | (true, none) => .skip

/-- C5: the source filter check realizes exactly the nine-rule
first-match-wins cascade of the specification; in particular a path
matched by both the exclude and the include pattern is skipped (exclude
wins) and the root path is never accepted. -/
theorem check_matches_spec_cascade (o : Options) (root s : String) (t : PathType) :
    checkDecision o root s t = classifyEntry o root s t ∧
    (excludeHits o s = true →
      (o.includePaths.map (fun re => re s)).getD false = true →
      s ≠ root → classifyEntry o root s t = .skip) ∧
    checkDecision o root root t ≠ .accept := by
  refine ⟨?_, ?_, ?_⟩
  · unfold checkDecision check classifyEntry
    split_ifs <;> rfl
  · intro hex _hin hne
    unfold classifyEntry
    by_cases h1 : t = .UNSUPPORTED
    · simp [h1]
    · simp [h1, hne, hex]
  · unfold checkDecision check
    split_ifs <;> simp_all

/-- Witness for C5 at a concrete configuration: both patterns match the
path, the exclude wins, and the root is never accepted. -/
theorem check_matches_spec_cascade_witness :
    (let o : Options := { excludePaths := some (fun _ => true),
                          includePaths := some (fun _ => true) }
     checkDecision o "r" "r/x" .FILE = classifyEntry o "r" "r/x" .FILE ∧
       classifyEntry o "r" "r/x" .FILE = .skip ∧
       checkDecision o "r" "r" .FILE ≠ .accept) := by
  refine ⟨(check_matches_spec_cascade _ "r" "r/x" .FILE).1, ?_, ?_⟩
  · exact (check_matches_spec_cascade _ "r" "r/x" .FILE).2.1 rfl rfl (by decide)
  · exact (check_matches_spec_cascade _ "r" "r" .FILE).2.2

/-- Per-path cached metadata, pathInfos from notifier.go. -/
structure PathInfos where
  modTime : Int
  mode : FileMode
  visited : Bool
deriving DecidableEq, Repr

/-- The sync.Map path cache, as an association list with at most one
binding per key (store replaces any previous binding). -/
abbrev Cache := List (String × PathInfos)

/-- Cache lookup (sync.Map.Load). -/
def Cache.loadPath (c : Cache) (p : String) : Option PathInfos :=
  List.lookup p c

/-- Remove every binding of a key (sync.Map.Delete). -/
def Cache.erase (c : Cache) (p : String) : Cache :=
  c.filter (fun kv => kv.1 != p)

/-- Cache store (sync.Map.Store): replaces any previous binding. -/
def Cache.storePath (c : Cache) (p : String) (i : PathInfos) : Cache :=
  (p, i) :: Cache.erase c p

/-- The result of os.FileInfo for a path: modification time and mode. -/
structure FileInfo where
  modTime : Int
  mode : FileMode
deriving DecidableEq, Repr

instance {ε α : Type} [DecidableEq ε] [DecidableEq α] : DecidableEq (Except ε α) := fun x y =>
  match x, y with
  | .error a, .error b =>
    if h : a = b then isTrue (by rw [h]) else isFalse (fun he => by cases he; exact h rfl)
  | .error _, .ok _ => isFalse (fun he => by cases he)
  | .ok _, .error _ => isFalse (fun he => by cases he)
  | .ok a, .ok b =>
    if h : a = b then isTrue (by rw [h]) else isFalse (fun he => by cases he; exact h rfl)

/-- fsEntry from notifier.go, enriched with the two observations the code
makes through the DirEntry it carries: dtype is what d.Type() returns
(type bits only, as fs.DirEntry.Type specifies) and info is what d.Info()
returns, an error or a FileInfo. -/
structure FsEntry where
  path : String
  dtype : FileMode
  info : Except String FileInfo
  err : Option String := none
deriving DecidableEq, Repr

/-- queueEvent from event.go: the event reaches the queue only while the
notifier is running. -/
def queueEvent (running : Bool) (evs : List Event) (ev : Event) : List Event :=
  if running then evs ++ [ev] else evs

/-- The classifier, function event from the worker file: diffs the fresh
metadata fi against the cached snapshot of fse.path, updates the cache and
emits events. Note the permission comparison of the source text: it
compares fi.Mode().Type().Perm() with pi.mode.Perm(), that is, the
permission bits of the type-bits-only mode. -/
def event (o : Options) (running : Bool) (c : Cache) (pt : PathType)
    (fse : FsEntry) (fi : FileInfo) : Cache × List Event :=
  match c.loadPath fse.path with
  | none =>
    let c1 := c.storePath fse.path ⟨fi.modTime, fi.mode.typeBits, true⟩
    let evs := if !o.event.ignoreCreate then
        queueEvent running [] ⟨fse.path, pt, .CREATE, fse.err⟩ else []
    (c1, evs)
  | some pi0 =>
    let pi1 : PathInfos := { pi0 with visited := true }
    let permChanged : Bool := (fi.mode.typeBits).permBits != pi1.mode.permBits
    let pi2 := if permChanged then { pi1 with mode := fi.mode.typeBits } else pi1
    let evs1 := if permChanged && !o.event.ignorePerm then
        queueEvent running [] ⟨fse.path, pt, .PERM, fse.err⟩ else []
    let modChanged : Bool := fi.modTime != pi2.modTime
    let pi3 := if modChanged then { pi2 with modTime := fi.modTime } else pi2
    let evs2 := evs1 ++ (if modChanged && !o.event.ignoreModify then
        queueEvent running [] ⟨fse.path, pt, .MODIFY, fse.err⟩ else [])
    let evs3 := evs2 ++ (if !(permChanged || modChanged) && !o.event.ignoreNoChange then
        queueEvent running [] ⟨fse.path, pt, .NOCHANGE, fse.err⟩ else [])
    (c.storePath fse.path pi3, evs3)

/-- C1: evaluation of the classifier at an input where the permission bits
of the path changed on disk (0o644 to 0o600) together with its
modification time, PERM events enabled. The cached snapshot holds the
type-only mode that init and the classifier store (a regular file stores
mode 0). The classifier emits only MODIFY and leaves the cached mode
unchanged: the permission comparison reads the permission bits of
Type(), which are always zero, so no PERM event is ever emitted. -/
theorem event_perm_change_emits_no_perm :
    event {} true [("a", ⟨1, 0, false⟩)] .FILE ⟨"a", 0, .ok ⟨2, 0o600⟩, none⟩ ⟨2, 0o600⟩ =
      ([("a", ⟨2, 0, true⟩)], [⟨"a", .FILE, .MODIFY, none⟩]) := by
  decide

/-- missingPaths from notifier.go: the end-of-pass deletion sweep. It
walks the cached snapshots; it stops early when the notifier is no longer
running; a visited snapshot is reset to not visited; an unvisited
snapshot triggers a DELETE event when DELETE events are enabled and is
evicted from the cache. -/
def missingPaths (o : Options) (running : Bool) : Cache → Cache × List Event
  | [] => ([], [])
  | (p, pin) :: rest =>
    if !running then ((p, pin) :: rest, [])
    else if pin.visited then
      let r := missingPaths o running rest
      ((p, { pin with visited := false }) :: r.1, r.2)
    else
      let evs := if !o.event.ignoreDelete then
          queueEvent running [] ⟨p, getPathType pin.mode, .DELETE, none⟩ else []
      let r := missingPaths o running rest
      (r.1, evs ++ r.2)

/-- The end-of-pass step of scanner from notifier.go: missingPaths runs
only when DELETE events are not suppressed. -/
def sweepPhase (o : Options) (running : Bool) (c : Cache) : Cache × List Event :=
  if !o.event.ignoreDelete then missingPaths o running c else (c, [])

/-- C2: evaluation of the end-of-pass sweep step at a cache holding one
visited and one unvisited snapshot while DELETE events are suppressed:
the scanner skips missingPaths entirely, so the visited flag is not reset
and the stale snapshot is not evicted, contradicting the claim that the
reset and eviction maintenance is unconditional. -/
theorem sweep_phase_skipped_when_delete_suppressed :
    sweepPhase { event := { ignoreDelete := true } } true
        [("a", ⟨0, 0, true⟩), ("b", ⟨0, 0, false⟩)] =
      ([("a", ⟨0, 0, true⟩), ("b", ⟨0, 0, false⟩)], []) := by
  decide

/-- Outcome of one iteration of the worker loop body for one intake
entry: either the plain Go code panics, or it continues with an updated
cache and a list of emitted events. -/
inductive WorkOut
  | panicked
  | finished (c : Cache) (evs : List Event)
deriving DecidableEq, Repr

/-- One iteration of the function work from the worker file, for one
entry received from the intake queue. The Go body runs fi, err =
fse.d.Info(); on an error it builds the ERROR event with
getPathType(fi.Mode().Type()), calling Mode on the nil FileInfo that the
failed Info returned: a nil-interface method call, hence a runtime
panic. When error events are suppressed the branch body is skipped and
the loop continues. On success the body re-applies check and then runs
the classifier. -/
def workStep (o : Options) (running : Bool) (root : String) (c : Cache)
    (fse : FsEntry) : WorkOut :=
  match fse.info with
  | .error _e =>
    if !o.event.ignoreErrors then .panicked
    else .finished c []
  | .ok fi =>
    let pt := getPathType fse.dtype
    if (check o root fse.path pt none).1 then .finished c []
    else
      let r := event o running c pt fse fi
      .finished r.1 r.2

/-- C4: evaluation of the worker body at an entry whose metadata
retrieval failed. With ERROR events enabled (the default) the body
panics on the nil FileInfo instead of emitting an ERROR event and
continuing; with ERROR events suppressed it skips the entry without
touching the cache. -/
theorem work_metadata_failure_panics :
    workStep {} true "r" [] ⟨"r/a", 0, .error "permission denied", none⟩ =
        .panicked ∧
      workStep { event := { ignoreErrors := true } } true "r" []
          ⟨"r/a", 0, .error "permission denied", none⟩ =
        .finished [] [] := by
  constructor <;> decide

/-- flush from notifier.go: Range over the cache deleting every key. -/
def flush (c : Cache) : Cache :=
  c.foldl (fun acc kv => Cache.erase acc kv.1) c

/-- Folding key deletions over a list that mentions the key of every
element of the accumulator empties the accumulator. -/
theorem foldl_erase_keys (l : Cache) :
    ∀ acc : Cache, (∀ kv ∈ acc, kv.1 ∈ l.map Prod.fst) →
      l.foldl (fun a kv => Cache.erase a kv.1) acc = [] := by
  induction l with
  | nil =>
    intro acc h
    cases acc with
    | nil => rfl
    | cons kv rest => exact absurd (h kv (List.mem_cons_self kv rest)) (by simp)
  | cons x l ih =>
    intro acc h
    simp only [List.foldl_cons]
    apply ih
    intro kv hkv
    have hmem : kv ∈ acc ∧ (kv.1 != x.1) = true := List.mem_filter.mp hkv
    have hne : kv.1 ≠ x.1 := by simpa using hmem.2
    have := h kv hmem.1
    simp only [List.map_cons, List.mem_cons] at this
    exact this.resolve_left hne

/-- flush leaves the path cache empty. -/
theorem flush_eq_nil (c : Cache) : flush c = [] :=
  foldl_erase_keys c c (fun _ hkv => List.mem_map_of_mem Prod.fst hkv)

/-- The lifecycle flags and owned state of a snotifier instance. -/
structure SState where
  ready : Bool
  running : Bool
  stopping : Bool
  paused : Bool
  cache : Cache
  queuesClosed : Bool
deriving DecidableEq, Repr

/-- Start from notifier.go: the precondition checks in source order; on
success the running flag is set (the scan loop itself is modelled
separately). -/
def SState.Start (s : SState) : Option ErrorCode × SState :=
  if s.running then (some .ErrScanAlreadyStarted, s)
  else if s.stopping then (some .ErrScanIsStopping, s)
  else if !s.ready then (some .ErrScanIsNotReady, s)
  else (none, { s with running := true })

/-- Stop from notifier.go: precondition checks, then a signal on the stop
channel (the teardown it triggers is finalize). -/
def SState.Stop (s : SState) : Option ErrorCode × SState :=
  if s.stopping then (some .ErrScanIsStopping, s)
  else if !s.running then (some .ErrScanIsNotRunning, s)
  else (none, s)

/-- Pause from notifier.go. -/
def SState.Pause (s : SState) : Option ErrorCode × SState :=
  if s.stopping then (some .ErrScanIsStopping, s)
  else if !s.running then (some .ErrScanIsNotRunning, s)
  else (none, { s with paused := true })

/-- Modelled from the spec: the Resume operation of the public
ScanNotifier interface. Its implementation file is not part of the
sources here (the README action table and the ErrScanIsNotPaused error
code refer to it); spec section 4.5 defines it: clears paused, with no
validity check beyond must not be stopping. -/
def SState.Resume (s : SState) : Option ErrorCode × SState :=
  if s.stopping then (some .ErrScanIsStopping, s)
  else (none, { s with paused := false })

/-- Flush from notifier.go, on the instance state. -/
def SState.Flush (s : SState) : SState :=
  { s with cache := flush s.cache }

/-- finalize from helpers.go. The Go body stores stopping=true on entry
and stopping=false before returning, so the net effect recorded here is
stopping=false; it closes the stop channel and both queues, waits for
workers, flushes the cache, clears running and clears ready. -/
def SState.finalize (s : SState) : SState :=
  { s with stopping := false, running := false, ready := false,
           cache := flush s.cache, queuesClosed := true }

/-- What one iteration of the scanner loop from notifier.go does in its
default branch: with paused set it only sleeps and re-checks, otherwise
it walks the tree and sweeps. -/
inductive IterAction
  | sleepOnly | walkAndSweep
deriving DecidableEq, Repr

def scannerIterAction (paused : Bool) : IterAction :=
  if paused then .sleepOnly else .walkAndSweep

/-- C6: each lifecycle call in an invalid state returns the typed error
of the first violated precondition in source order and leaves the state
unchanged: Start reports ErrScanAlreadyStarted when running, then
ErrScanIsStopping when stopping, then ErrScanIsNotReady when not ready;
Stop and Pause report ErrScanIsStopping when stopping and
ErrScanIsNotRunning when not running. -/
theorem lifecycle_invalid_state_errors (s : SState) :
    (s.running = true → s.Start = (some .ErrScanAlreadyStarted, s)) ∧
    (s.running = false → s.stopping = true → s.Start = (some .ErrScanIsStopping, s)) ∧
    (s.running = false → s.stopping = false → s.ready = false →
      s.Start = (some .ErrScanIsNotReady, s)) ∧
    (s.stopping = true → s.Stop = (some .ErrScanIsStopping, s)) ∧
    (s.stopping = false → s.running = false → s.Stop = (some .ErrScanIsNotRunning, s)) ∧
    (s.stopping = true → s.Pause = (some .ErrScanIsStopping, s)) ∧
    (s.stopping = false → s.running = false → s.Pause = (some .ErrScanIsNotRunning, s)) := by
  refine ⟨?_, ?_, ?_, ?_, ?_, ?_, ?_⟩ <;> intros <;>
    simp [SState.Start, SState.Stop, SState.Pause, *]

/-- Witness for C6 at concrete states exercising all seven error cases. -/
theorem lifecycle_invalid_state_errors_witness :
    (SState.Start ⟨true, true, false, false, [], false⟩ =
      (some .ErrScanAlreadyStarted, ⟨true, true, false, false, [], false⟩)) ∧
    (SState.Start ⟨true, false, true, false, [], false⟩ =
      (some .ErrScanIsStopping, ⟨true, false, true, false, [], false⟩)) ∧
    (SState.Start ⟨false, false, false, false, [], false⟩ =
      (some .ErrScanIsNotReady, ⟨false, false, false, false, [], false⟩)) ∧
    (SState.Stop ⟨true, false, true, false, [], false⟩ =
      (some .ErrScanIsStopping, ⟨true, false, true, false, [], false⟩)) ∧
    (SState.Stop ⟨false, false, false, false, [], false⟩ =
      (some .ErrScanIsNotRunning, ⟨false, false, false, false, [], false⟩)) ∧
    (SState.Pause ⟨true, false, true, false, [], false⟩ =
      (some .ErrScanIsStopping, ⟨true, false, true, false, [], false⟩)) ∧
    (SState.Pause ⟨false, false, false, false, [], false⟩ =
      (some .ErrScanIsNotRunning, ⟨false, false, false, false, [], false⟩)) := by
  obtain h1 := lifecycle_invalid_state_errors ⟨true, true, false, false, [], false⟩
  obtain h2 := lifecycle_invalid_state_errors ⟨true, false, true, false, [], false⟩
  obtain h3 := lifecycle_invalid_state_errors ⟨false, false, false, false, [], false⟩
  exact ⟨h1.1 rfl, h2.2.1 rfl rfl, h3.2.2.1 rfl rfl rfl, h2.2.2.2.1 rfl,
    h3.2.2.2.2.1 rfl rfl, h2.2.2.2.2.2.1 rfl, h3.2.2.2.2.2.2 rfl rfl⟩

/-- C3: Resume fails exactly when the notifier is stopping (its only
validity check), and on every paused, non-stopping state it succeeds,
clears the paused flag, and the next scanner iteration walks and sweeps
again instead of only sleeping. -/
theorem resume_clears_paused (s : SState) :
    ((s.Resume).1.isSome ↔ s.stopping = true) ∧
    (s.stopping = false → s.paused = true →
      (s.Resume).1 = none ∧ (s.Resume).2 = { s with paused := false } ∧
        scannerIterAction (s.Resume).2.paused = .walkAndSweep) := by
  constructor
  · cases hs : s.stopping <;> simp [SState.Resume, hs]
  · intro h1 _h2
    simp [SState.Resume, h1, scannerIterAction]

/-- Witness for C3 at a concrete paused, running, non-stopping state. -/
theorem resume_clears_paused_witness :
    (SState.Resume ⟨true, true, false, true, [], false⟩).1 = none ∧
    (SState.Resume ⟨true, true, false, true, [], false⟩).2 =
      ⟨true, true, false, false, [], false⟩ ∧
    scannerIterAction (SState.Resume ⟨true, true, false, true, [], false⟩).2.paused =
      .walkAndSweep := by
  obtain h := (resume_clears_paused ⟨true, true, false, true, [], false⟩).2 rfl rfl
  exact ⟨h.1, h.2.1, h.2.2⟩

/-- The externally callable operations after construction. -/
inductive Op
  | startOp | stopOp | pauseOp | resumeOp | flushOp
deriving DecidableEq, Repr

def applyOp (s : SState) : Op → SState
  | .startOp => (s.Start).2
  | .stopOp => (s.Stop).2
  | .pauseOp => (s.Pause).2
  | .resumeOp => (s.Resume).2
  | .flushOp => s.Flush

def applyOps (s : SState) (ops : List Op) : SState :=
  ops.foldl applyOp s

/-- A torn-down state (ready, running, stopping all cleared) stays torn
down under every lifecycle operation. -/
theorem tornDown_applyOp (s : SState) (h1 : s.ready = false) (h2 : s.running = false)
    (h3 : s.stopping = false) (op : Op) :
    (applyOp s op).ready = false ∧ (applyOp s op).running = false ∧
      (applyOp s op).stopping = false := by
  cases op <;>
    simp [applyOp, SState.Start, SState.Stop, SState.Pause, SState.Resume,
      SState.Flush, h1, h2, h3]

theorem tornDown_applyOps (ops : List Op) :
    ∀ s : SState, s.ready = false → s.running = false → s.stopping = false →
      (applyOps s ops).ready = false ∧ (applyOps s ops).running = false ∧
        (applyOps s ops).stopping = false := by
  induction ops with
  | nil => intro s h1 h2 h3; exact ⟨h1, h2, h3⟩
  | cons op ops ih =>
    intro s h1 h2 h3
    obtain ⟨g1, g2, g3⟩ := tornDown_applyOp s h1 h2 h3 op
    exact ih (applyOp s op) g1 g2 g3

/-- C10: teardown clears ready together with running and stopping,
flushes the cache and closes both queues; afterwards, no sequence of
lifecycle calls ever makes the instance run again, and every subsequent
Start call returns ErrScanIsNotReady without changing the state. -/
theorem finalize_never_ready_again (s : SState) (ops : List Op) :
    (s.finalize).ready = false ∧ (s.finalize).running = false ∧
    (s.finalize).stopping = false ∧ (s.finalize).cache = [] ∧
    (s.finalize).queuesClosed = true ∧
    (applyOps s.finalize ops).running = false ∧
    (applyOps s.finalize ops).Start =
      (some .ErrScanIsNotReady, applyOps s.finalize ops) := by
  obtain ⟨g1, g2, g3⟩ := tornDown_applyOps ops s.finalize rfl rfl rfl
  refine ⟨rfl, rfl, rfl, flush_eq_nil s.cache, rfl, g2, ?_⟩
  simp [SState.Start, g1, g2, g3]

/-- init from notifier.go, the WalkDir callback used by New for one
entry: a traversal error aborts the walk; a filtered entry stores
nothing (a SkipDir from check is handed back to WalkDir, which prunes
the subtree and continues); otherwise a snapshot holding d.Info
modification time and d.Type mode is stored with visited=false, and an
entry whose d.Info fails is silently not stored (the shadowed err of
that if statement is not the one returned). -/
def init (o : Options) (root : String) (c : Cache) (e : FsEntry) : Except String Cache :=
  match e.err with
  | some werr => .error werr
  | none =>
    let t := getPathType e.dtype
    if (check o root e.path t e.err).1 then .ok c
    else
      match e.info with
      | .ok fi => .ok (c.storePath e.path ⟨fi.modTime, e.dtype, false⟩)
      | .error _ => .ok c

/-- filepath.WalkDir(root, sn.init): the seeding walk of New, folded
over the sequence of entries the traversal visits. -/
def walkDirInit (o : Options) (root : String) : Cache → List FsEntry → Except String Cache
  | c, [] => .ok c
  | c, e :: rest =>
    match init o root c e with
    | .error m => .error m
    | .ok c1 => walkDirInit o root c1 rest

/-- A construction error: the sentinel it wraps and the wrapped cause. -/
structure WrapErr where
  base : ErrorCode
  cause : Option String
deriving DecidableEq, Repr

/-- The state New hands back on success: options after setup, seeded
cache, both queue capacities, and the ready flag. -/
structure NState where
  root : String
  opts : Options
  cache : Cache
  queueCap : Int
  iqueueCap : Int
  ready : Bool

/-- New from notifier.go. statRes stands for os.Stat(root): an error, or
whether the statted path is a directory. entries is the sequence the
seeding traversal visits. -/
def New (root : String) (statRes : Except String Bool) (opts0 : Option Options)
    (entries : List FsEntry) : Except WrapErr NState :=
  match statRes with
  | .error e => .error ⟨.ErrInvalidRootDirPath, some e⟩
  | .ok isDir =>
    if !isDir then .error ⟨.ErrInvalidRootDirPath, none⟩
    else
      let opts := Options.setup opts0
      match walkDirInit opts root [] entries with
      | .error m => .error ⟨.ErrInitialization, some m⟩
      | .ok c => .ok ⟨root, opts, c, opts.queueSize, opts.queueSize, true⟩

/-- setup always stores true into the NOCHANGE suppression flag. -/
theorem setup_ignoreNoChange (oo : Option Options) :
    (Options.setup oo).event.ignoreNoChange = true := by
  cases oo <;> rfl

/-- C9: Options.setup, which New applies unconditionally, forces the
NOCHANGE suppression flag to true whatever its prior value, so a
SetIgnoreNoChangeEvent(false) issued before New is without effect: every
state New returns carries options with the flag forced to true. -/
theorem new_forces_nochange_suppression (o : Options) (root : String)
    (statRes : Except String Bool) (entries : List FsEntry) (st : NState) :
    (Options.setup (some (o.SetIgnoreNoChangeEvent false))).event.ignoreNoChange = true ∧
    (New root statRes (some (o.SetIgnoreNoChangeEvent false)) entries = .ok st →
      st.opts.event.ignoreNoChange = true) := by
  refine ⟨setup_ignoreNoChange _, ?_⟩
  intro h
  unfold New at h
  cases statRes with
  | error e => simp at h
  | ok isDir =>
    cases isDir with
    | false => simp at h
    | true =>
      simp only [Bool.not_true, Bool.false_eq_true, if_false] at h
      cases hw : walkDirInit (Options.setup (some (o.SetIgnoreNoChangeEvent false)))
          root [] entries with
      | error m => rw [hw] at h; simp at h
      | ok c =>
        rw [hw] at h
        cases h
        exact setup_ignoreNoChange _

/-- Witness for C9: a successful New on a concrete input returns options
with the NOCHANGE flag true although the caller cleared it beforehand. -/
theorem new_forces_nochange_suppression_witness :
    (Options.setup (some (Options.SetIgnoreNoChangeEvent {} false))).event.ignoreNoChange
        = true ∧
      (Options.setup (some (Options.SetIgnoreNoChangeEvent {} false))).event.ignoreNoChange
        = true := by
  obtain h := new_forces_nochange_suppression {} "r" (.ok true) []
    ⟨"r", Options.setup (some (Options.SetIgnoreNoChangeEvent {} false)), [],
      (Options.setup (some (Options.SetIgnoreNoChangeEvent {} false))).queueSize,
      (Options.setup (some (Options.SetIgnoreNoChangeEvent {} false))).queueSize, true⟩
  exact ⟨h.1, h.2 rfl⟩


theorem loadPath_storePath_self (c : Cache) (p : String) (i : PathInfos) :
    (c.storePath p i).loadPath p = some i := by
  simp [Cache.storePath, Cache.loadPath, List.lookup]

theorem loadPath_erase_ne (c : Cache) (p q : String) (h : q ≠ p) :
    (Cache.erase c p).loadPath q = c.loadPath q := by
  induction c with
  | nil => rfl
  | cons kv rest ih =>
    simp only [Cache.erase, List.filter_cons] at ih ⊢
    by_cases hk : kv.1 = p
    · have h1 : (kv.1 != p) = false := by simp [hk]
      have h2 : (q == kv.1) = false := by subst hk; simp [h]
      rw [h1]
      simp only [Bool.false_eq_true, if_false]
      rw [ih]
      simp [Cache.loadPath, List.lookup, h2]
    · have h1 : (kv.1 != p) = true := by simp [hk]
      rw [h1]
      simp only [if_true]
      show Cache.loadPath (kv :: Cache.erase rest p) q = Cache.loadPath (kv :: rest) q
      simp only [Cache.loadPath, List.lookup]
      cases hq : q == kv.1 with
      | true => rfl
      | false => exact ih

theorem loadPath_storePath_ne (c : Cache) (p q : String) (i : PathInfos) (h : q ≠ p) :
    (c.storePath p i).loadPath q = c.loadPath q := by
  have hq : (q == p) = false := by simp [h]
  simp only [Cache.storePath, Cache.loadPath, List.lookup, hq]
  exact loadPath_erase_ne c p q h

/-- Whether check lets the entry through (the negation of the ignore
flag check returns for it). -/
def acceptedEntry (o : Options) (root : String) (e : FsEntry) : Bool :=
  !(check o root e.path (getPathType e.dtype) e.err).1

/-- The seeding walk of New on traversal entries that carry no walk
error: it succeeds, stores the snapshot of every accepted entry whose
metadata fetch succeeded (modification time from Info, type-only mode
from Type, visited=false), leaves every other path binding unchanged,
and stores nothing else. -/
theorem walkDirInit_characterization (o : Options) (root : String) :
    ∀ (entries : List FsEntry) (c0 : Cache),
      (∀ e ∈ entries, e.err = none) →
      (entries.map FsEntry.path).Nodup →
      ∃ c, walkDirInit o root c0 entries = .ok c ∧
        (∀ e ∈ entries, ∀ fi, acceptedEntry o root e = true → e.info = .ok fi →
          c.loadPath e.path = some ⟨fi.modTime, e.dtype, false⟩) ∧
        (∀ p, (∀ e ∈ entries, e.path ≠ p) → c.loadPath p = c0.loadPath p) ∧
        (∀ p i, c.loadPath p = some i →
          c0.loadPath p = some i ∨
            ∃ e ∈ entries, ∃ fi, e.path = p ∧ acceptedEntry o root e = true ∧
              e.info = .ok fi ∧ i = ⟨fi.modTime, e.dtype, false⟩) := by
  intro entries
  induction entries with
  | nil =>
    intro c0 _ _
    exact ⟨c0, rfl, by simp, fun p _ => rfl, fun p i h => Or.inl h⟩
  | cons e rest ih =>
    intro c0 hnoerr hnd
    have he : e.err = none := hnoerr e (List.mem_cons_self e rest)
    have hnoerr2 : ∀ x ∈ rest, x.err = none :=
      fun x hx => hnoerr x (List.mem_cons_of_mem e hx)
    rw [List.map_cons, List.nodup_cons] at hnd
    obtain ⟨hnotin, hnd2⟩ := hnd
    have hne : ∀ x ∈ rest, x.path ≠ e.path := by
      intro x hx hcontra
      exact hnotin (hcontra ▸ List.mem_map_of_mem FsEntry.path hx)
    by_cases hacc : (check o root e.path (getPathType e.dtype) none).1 = true
    · -- filtered entry: nothing stored
      obtain ⟨c, hrun, hstored, hunch, hchar⟩ := ih c0 hnoerr2 hnd2
      refine ⟨c, ?_, ?_, ?_, ?_⟩
      · simp only [walkDirInit, init, he, hacc, if_true]
        exact hrun
      · intro x hx fi hx1 hx2
        rcases List.mem_cons.mp hx with hhead | htail
        · subst hhead
          rw [acceptedEntry, he, hacc] at hx1
          simp at hx1
        · exact hstored x htail fi hx1 hx2
      · intro p hp
        exact hunch p (fun x hx => hp x (List.mem_cons_of_mem e hx))
      · intro p i hload
        rcases hchar p i hload with h | ⟨x, hx, fi, h1, h2, h3, h4⟩
        · exact Or.inl h
        · exact Or.inr ⟨x, List.mem_cons_of_mem e hx, fi, h1, h2, h3, h4⟩
    · rw [Bool.not_eq_true] at hacc
      cases hinfo : e.info with
      | ok fi0 =>
        -- accepted entry with sound metadata: snapshot stored
        obtain ⟨c, hrun, hstored, hunch, hchar⟩ :=
          ih (c0.storePath e.path ⟨fi0.modTime, e.dtype, false⟩) hnoerr2 hnd2
        refine ⟨c, ?_, ?_, ?_, ?_⟩
        · simp only [walkDirInit, init, he, hacc, Bool.false_eq_true, if_false, hinfo]
          exact hrun
        · intro x hx fi hx1 hx2
          rcases List.mem_cons.mp hx with hhead | htail
          · subst hhead
            rw [hinfo] at hx2
            cases hx2
            rw [hunch x.path (fun y hy => hne y hy)]
            exact loadPath_storePath_self c0 x.path _
          · exact hstored x htail fi hx1 hx2
        · intro p hp
          rw [hunch p (fun x hx => hp x (List.mem_cons_of_mem e hx))]
          exact loadPath_storePath_ne c0 e.path p _
            (fun hcontra => hp e (List.mem_cons_self e rest) hcontra.symm)
        · intro p i hload
          rcases hchar p i hload with h | ⟨x, hx, fi, h1, h2, h3, h4⟩
          · by_cases hp : p = e.path
            · subst hp
              rw [loadPath_storePath_self c0 e.path _] at h
              cases h
              exact Or.inr ⟨e, List.mem_cons_self e rest, fi0, rfl,
                by simp [acceptedEntry, he, hacc], hinfo, rfl⟩
            · rw [loadPath_storePath_ne c0 e.path p _ hp] at h
              exact Or.inl h
          · exact Or.inr ⟨x, List.mem_cons_of_mem e hx, fi, h1, h2, h3, h4⟩
      | error m =>
        -- accepted entry whose metadata fetch failed: silently dropped
        obtain ⟨c, hrun, hstored, hunch, hchar⟩ := ih c0 hnoerr2 hnd2
        refine ⟨c, ?_, ?_, ?_, ?_⟩
        · simp only [walkDirInit, init, he, hacc, Bool.false_eq_true, if_false, hinfo]
          exact hrun
        · intro x hx fi hx1 hx2
          rcases List.mem_cons.mp hx with hhead | htail
          · subst hhead
            rw [hinfo] at hx2
            cases hx2
          · exact hstored x htail fi hx1 hx2
        · intro p hp
          exact hunch p (fun x hx => hp x (List.mem_cons_of_mem e hx))
        · intro p i hload
          rcases hchar p i hload with h | ⟨x, hx, fi, h1, h2, h3, h4⟩
          · exact Or.inl h
          · exact Or.inr ⟨x, List.mem_cons_of_mem e hx, fi, h1, h2, h3, h4⟩

/-- C8 counterexample: an accepted entry whose metadata fetch fails is
silently dropped by the seeding walk: New succeeds with an empty cache
although the entry survived filtering, so the cache does not hold one
snapshot per accepted entry. -/
theorem new_drops_accepted_entry_with_failed_info :
    acceptedEntry (Options.setup none) "r" ⟨"r/a", 0, .error "vanished", none⟩ = true ∧
    New "r" (.ok true) none [⟨"r/a", 0, .error "vanished", none⟩] =
      .ok ⟨"r", Options.setup none, [],
        (Options.setup none).queueSize, (Options.setup none).queueSize, true⟩ := by
  exact ⟨by decide, rfl⟩

/-- C8 (amended): New wraps ErrInvalidRootDirPath when the root stat
fails or the statted path is no directory, wraps ErrInitialization when
the seeding walk fails, and on an error-free traversal succeeds with
ready set, both queue capacities from the options after setup, and a
cache holding exactly one visited=false snapshot per accepted entry
whose metadata retrieval succeeded (accepted entries whose metadata
retrieval fails are silently omitted). -/
theorem new_construction (root : String) (oo : Option Options) (entries : List FsEntry) :
    (∀ m, New root (.error m) oo entries = .error ⟨.ErrInvalidRootDirPath, some m⟩) ∧
    (New root (.ok false) oo entries = .error ⟨.ErrInvalidRootDirPath, none⟩) ∧
    (∀ m, walkDirInit (Options.setup oo) root [] entries = .error m →
      New root (.ok true) oo entries = .error ⟨.ErrInitialization, some m⟩) ∧
    ((∀ e ∈ entries, e.err = none) → (entries.map FsEntry.path).Nodup →
      ∃ st, New root (.ok true) oo entries = .ok st ∧
        st.ready = true ∧
        st.queueCap = (Options.setup oo).queueSize ∧
        st.iqueueCap = (Options.setup oo).queueSize ∧
        (∀ e ∈ entries, ∀ fi, acceptedEntry (Options.setup oo) root e = true →
          e.info = .ok fi →
          st.cache.loadPath e.path = some ⟨fi.modTime, e.dtype, false⟩) ∧
        (∀ p i, st.cache.loadPath p = some i →
          i.visited = false ∧
            ∃ e ∈ entries, ∃ fi, e.path = p ∧
              acceptedEntry (Options.setup oo) root e = true ∧ e.info = .ok fi ∧
              i = ⟨fi.modTime, e.dtype, false⟩)) := by
  refine ⟨fun m => rfl, rfl, ?_, ?_⟩
  · intro m hw
    simp only [New, Bool.not_true, Bool.false_eq_true, if_false, hw]
  · intro hnoerr hnd
    obtain ⟨c, hrun, hstored, _hunch, hchar⟩ :=
      walkDirInit_characterization (Options.setup oo) root entries [] hnoerr hnd
    refine ⟨⟨root, Options.setup oo, c,
        (Options.setup oo).queueSize, (Options.setup oo).queueSize, true⟩, ?_,
      rfl, rfl, rfl, hstored, ?_⟩
    · simp only [New, Bool.not_true, Bool.false_eq_true, if_false, hrun]
    · intro p i hload
      rcases hchar p i hload with h | ⟨e, hmem, fi, h1, h2, h3, h4⟩
      · simp [Cache.loadPath, List.lookup] at h
      · exact ⟨by rw [h4], e, hmem, fi, h1, h2, h3, h4⟩

/-- Witness for C8 (amended) on a one-entry traversal whose metadata
fetch succeeds: New succeeds and the cache holds the snapshot with
visited=false. -/
theorem new_construction_witness :
    ∃ st, New "r" (.ok true) none [⟨"r/a", 0, .ok ⟨5, 0o644⟩, none⟩] = .ok st ∧
      st.ready = true ∧
      st.cache.loadPath "r/a" = some ⟨5, 0, false⟩ := by
  obtain ⟨st, h1, h2, _h3, _h4, h5, _h6⟩ :=
    (new_construction "r" none [⟨"r/a", 0, .ok ⟨5, 0o644⟩, none⟩]).2.2.2
      (by decide) (by decide)
  refine ⟨st, h1, h2, ?_⟩
  exact h5 ⟨"r/a", 0, .ok ⟨5, 0o644⟩, none⟩ (List.mem_singleton.mpr rfl) ⟨5, 0o644⟩
    (by decide) rfl

theorem mem_storePath (c : Cache) (p : String) (v : PathInfos) (kv : String × PathInfos)
    (h : kv ∈ c.storePath p v) : kv = (p, v) ∨ kv ∈ c := by
  rcases List.mem_cons.mp h with h1 | h1
  · exact Or.inl h1
  · exact Or.inr (List.mem_of_mem_filter h1)

theorem mem_keys_storePath (c : Cache) (p q : String) (v : PathInfos)
    (h : q ∈ (c.storePath p v).map Prod.fst) : q = p ∨ q ∈ c.map Prod.fst := by
  obtain ⟨kv, hkv, hq⟩ := List.mem_map.mp h
  rcases mem_storePath c p v kv hkv with h1 | h1
  · subst h1; exact Or.inl hq.symm
  · exact Or.inr (hq ▸ List.mem_map_of_mem Prod.fst h1)

theorem loadPath_eq_none_of_not_mem_keys (c : Cache) (p : String)
    (h : p ∉ c.map Prod.fst) : c.loadPath p = none := by
  induction c with
  | nil => rfl
  | cons kv rest ih =>
    simp only [List.map_cons, List.mem_cons] at h
    push_neg at h
    have h1 : (p == kv.1) = false := by simp [h.1]
    simp only [Cache.loadPath, List.lookup, h1]
    exact ih h.2

/-- The classifier always re-stores the path it processed, with a
snapshot whose visited flag is set, and it never emits a DELETE. -/
theorem event_cache_shape (o : Options) (running : Bool) (c : Cache) (pt : PathType)
    (fse : FsEntry) (fi : FileInfo) :
    ∃ v : PathInfos, v.visited = true ∧
      (event o running c pt fse fi).1 = c.storePath fse.path v := by
  unfold event
  cases hload : c.loadPath fse.path with
  | none => exact ⟨⟨fi.modTime, fi.mode.typeBits, true⟩, rfl, rfl⟩
  | some pi0 =>
    simp only
    split_ifs <;> exact ⟨_, rfl, rfl⟩

theorem event_no_delete (o : Options) (running : Bool) (c : Cache) (pt : PathType)
    (fse : FsEntry) (fi : FileInfo) :
    ∀ ev ∈ (event o running c pt fse fi).2, ev.name ≠ EventName.DELETE := by
  unfold event
  cases hload : c.loadPath fse.path with
  | none =>
    simp only [queueEvent]
    split_ifs <;> intro ev hev <;> simp_all
  | some pi0 =>
    simp only [queueEvent]
    split_ifs <;> intro ev hev <;> simp at hev <;> (try casesm* _ ∨ _) <;> simp_all

/-- A path absent from the cache is classified as created: with CREATE
events enabled the classifier emits exactly one CREATE for it and stores
its snapshot with visited=true. -/
theorem event_create (o : Options) (c : Cache) (pt : PathType) (fse : FsEntry)
    (fi : FileInfo) (habs : c.loadPath fse.path = none)
    (hflag : o.event.ignoreCreate = false) :
    (event o true c pt fse fi).1 =
        c.storePath fse.path ⟨fi.modTime, fi.mode.typeBits, true⟩ ∧
      (event o true c pt fse fi).2 = [⟨fse.path, pt, .CREATE, fse.err⟩] := by
  simp [event, habs, hflag, queueEvent]

/-- One completed traversal of a pass: scan (the WalkDir callback of the
scanner) filters each entry with check and forwards the survivors
through the intake queue; the workers drain that queue, so the entry
sequence is processed by the worker body in order. A worker panic aborts
the pass. -/
def processEntries (o : Options) (running : Bool) (root : String) :
    Cache → List FsEntry → Except Unit (Cache × List Event)
  | c, [] => .ok (c, [])
  | c, e :: rest =>
    if (check o root e.path (getPathType e.dtype) e.err).1 then
      processEntries o running root c rest
    else
      match workStep o running root c e with
      | .panicked => .error ()
      | .finished c1 evs1 =>
        match processEntries o running root c1 rest with
        | .error u => .error u
        | .ok (c2, evs2) => .ok (c2, evs1 ++ evs2)

/-- One full pass of the scanner loop: the traversal with its workers,
then the end-of-pass sweep step. -/
def runPass (o : Options) (running : Bool) (root : String) (c : Cache)
    (entries : List FsEntry) : Except Unit (Cache × List Event) :=
  match processEntries o running root c entries with
  | .error u => .error u
  | .ok (c1, evs) =>
    let s := sweepPhase o running c1
    .ok (s.1, evs ++ s.2)

/-- On a cache whose snapshots are all visited, the sweep only resets
the visited flags: nothing is evicted and no event is emitted. -/
theorem missingPaths_all_visited (o : Options) (c : Cache)
    (h : ∀ kv ∈ c, kv.2.visited = true) :
    missingPaths o true c =
      (c.map (fun kv => (kv.1, { kv.2 with visited := false })), []) := by
  induction c with
  | nil => rfl
  | cons kv rest ih =>
    have h1 : kv.2.visited = true := h kv (List.mem_cons_self kv rest)
    have h2 : ∀ x ∈ rest, x.2.visited = true :=
      fun x hx => h x (List.mem_cons_of_mem kv hx)
    simp only [missingPaths, Bool.not_true, Bool.false_eq_true, if_false, h1, if_true,
      ih h2, List.map_cons]

/-- The worker phase of a pass whose entries all carry sound metadata:
it never panics, it preserves the all-visited cache invariant, it emits
no DELETE, and it emits one CREATE (when CREATE events are enabled) for
every accepted entry whose path was not cached when the pass began. -/
theorem processEntries_characterization (o : Options) (root : String) :
    ∀ (entries : List FsEntry) (c : Cache),
      (∀ e ∈ entries, ∃ fi, e.info = Except.ok fi) →
      ∃ c1 evs, processEntries o true root c entries = .ok (c1, evs) ∧
        ((∀ kv ∈ c, kv.2.visited = true) → ∀ kv ∈ c1, kv.2.visited = true) ∧
        (∀ ev ∈ evs, ev.name ≠ EventName.DELETE) ∧
        (o.event.ignoreCreate = false →
          (entries.map FsEntry.path).Nodup →
          ∀ e ∈ entries,
            (check o root e.path (getPathType e.dtype) e.err).1 = false →
            e.path ∉ c.map Prod.fst →
            (⟨e.path, getPathType e.dtype, .CREATE, e.err⟩ : Event) ∈ evs) := by
  intro entries
  induction entries with
  | nil =>
    intro c _
    exact ⟨c, [], rfl, fun h => h, by simp, by simp⟩
  | cons e rest ih =>
    intro c hinfo
    have hinfo2 : ∀ x ∈ rest, ∃ fi, x.info = Except.ok fi :=
      fun x hx => hinfo x (List.mem_cons_of_mem e hx)
    by_cases hacc : (check o root e.path (getPathType e.dtype) e.err).1 = true
    · -- filtered by the traversal callback: not enqueued
      obtain ⟨c1, evs, hrun, hvis, hnodel, hcreate⟩ := ih c hinfo2
      refine ⟨c1, evs, ?_, hvis, hnodel, ?_⟩
      · simp only [processEntries, hacc, if_true]
        exact hrun
      · intro hflag hnd x hx hxacc habs
        rcases List.mem_cons.mp hx with hhead | htail
        · subst hhead; rw [hacc] at hxacc; cases hxacc
        · rw [List.map_cons, List.nodup_cons] at hnd
          exact hcreate hflag hnd.2 x htail hxacc habs
    · rw [Bool.not_eq_true] at hacc
      obtain ⟨fi, hfi⟩ := hinfo e (List.mem_cons_self e rest)
      have hacc2 : (check o root e.path (getPathType e.dtype) none).1 = false := hacc
      -- the worker body runs the classifier on this entry
      have hws : workStep o true root c e =
          .finished (event o true c (getPathType e.dtype) e fi).1
            (event o true c (getPathType e.dtype) e fi).2 := by
        simp only [workStep, hfi, hacc2, Bool.false_eq_true, if_false]
      obtain ⟨v, hvtrue, hshape⟩ :=
        event_cache_shape o true c (getPathType e.dtype) e fi
      obtain ⟨c1, evs, hrun, hvis, hnodel, hcreate⟩ :=
        ih (event o true c (getPathType e.dtype) e fi).1 hinfo2
      refine ⟨c1, (event o true c (getPathType e.dtype) e fi).2 ++ evs, ?_, ?_, ?_, ?_⟩
      · simp only [processEntries, hacc, Bool.false_eq_true, if_false, hws, hrun]
      · intro hc kv hkv
        refine hvis ?_ kv hkv
        intro kv2 hkv2
        rw [hshape] at hkv2
        rcases mem_storePath c e.path v kv2 hkv2 with h1 | h1
        · rw [h1]; exact hvtrue
        · exact hc kv2 h1
      · intro ev hev
        rcases List.mem_append.mp hev with h1 | h1
        · exact event_no_delete o true c (getPathType e.dtype) e fi ev h1
        · exact hnodel ev h1
      · intro hflag hnd x hx hxacc habs
        rw [List.map_cons, List.nodup_cons] at hnd
        rcases List.mem_cons.mp hx with hhead | htail
        · subst hhead
          have habs2 : c.loadPath x.path = none :=
            loadPath_eq_none_of_not_mem_keys c x.path habs
          obtain ⟨_, hevs⟩ :=
            event_create o c (getPathType x.dtype) x fi habs2 hflag
          rw [hevs]
          exact List.mem_append.mpr (Or.inl (List.mem_singleton.mpr rfl))
        · refine List.mem_append.mpr (Or.inr (hcreate hflag hnd.2 x htail hxacc ?_))
          intro hmem
          rw [hshape] at hmem
          rcases mem_keys_storePath c e.path x.path v hmem with h1 | h1
          · exact hnd.1 (h1 ▸ List.mem_map_of_mem FsEntry.path htail)
          · exact habs h1

/-- C7: Flush empties the path cache, and the pass that follows it
(over distinct, accepted, still-statable paths) emits a CREATE for
every such path unless CREATE events are suppressed, and emits no
DELETE event for any path the pass still visits. -/
theorem flush_then_pass (o : Options) (root : String) (c : Cache) (entries : List FsEntry)
    (hacc : ∀ e ∈ entries, (check o root e.path (getPathType e.dtype) e.err).1 = false)
    (hinfo : ∀ e ∈ entries, ∃ fi, e.info = Except.ok fi)
    (hnd : (entries.map FsEntry.path).Nodup) :
    flush c = [] ∧
    ∃ c1 evs, runPass o true root (flush c) entries = .ok (c1, evs) ∧
      (o.event.ignoreCreate = false →
        ∀ e ∈ entries, (⟨e.path, getPathType e.dtype, .CREATE, e.err⟩ : Event) ∈ evs) ∧
      (∀ ev ∈ evs, ev.name = EventName.DELETE → ev.path ∉ entries.map FsEntry.path) := by
  refine ⟨flush_eq_nil c, ?_⟩
  obtain ⟨c1, evs, hrun, hvis, hnodel, hcreate⟩ :=
    processEntries_characterization o root entries (flush c) hinfo
  have hvc1 : ∀ kv ∈ c1, kv.2.visited = true := by
    apply hvis
    rw [flush_eq_nil c]
    intro kv hkv
    cases hkv
  have hsweep : (sweepPhase o true c1).2 = [] := by
    unfold sweepPhase
    by_cases hdel : o.event.ignoreDelete = true
    · simp [hdel]
    · rw [Bool.not_eq_true] at hdel
      simp [hdel, missingPaths_all_visited o c1 hvc1]
  refine ⟨(sweepPhase o true c1).1, evs ++ (sweepPhase o true c1).2, ?_, ?_, ?_⟩
  · simp only [runPass, hrun]
  · intro hflag e hmem
    refine List.mem_append.mpr (Or.inl ?_)
    apply hcreate hflag hnd e hmem (hacc e hmem)
    rw [flush_eq_nil c]
    simp
  · intro ev hev hname
    rcases List.mem_append.mp hev with h1 | h1
    · exact absurd hname (hnodel ev h1)
    · rw [hsweep] at h1
      cases h1

/-- Witness for C7: a concrete flush of a one-entry cache followed by a
pass over one surviving file emits its CREATE event. -/
theorem flush_then_pass_witness :
    flush [("old", (⟨0, 0, true⟩ : PathInfos))] = [] ∧
    ∃ c1 evs, runPass {} true "r" (flush [("old", ⟨0, 0, true⟩)])
        [⟨"r/a", 0, .ok ⟨5, 0o644⟩, none⟩] = .ok (c1, evs) ∧
      (⟨"r/a", getPathType 0, .CREATE, none⟩ : Event) ∈ evs := by
  obtain ⟨h0, c1, evs, h1, h2, _h3⟩ := flush_then_pass {} "r" [("old", ⟨0, 0, true⟩)]
    [⟨"r/a", 0, .ok ⟨5, 0o644⟩, none⟩] (by decide)
    (fun e he => ⟨⟨5, 0o644⟩, by rcases List.mem_singleton.mp he with rfl; rfl⟩)
    (by decide)
  exact ⟨h0, c1, evs, h1, h2 rfl _ (List.mem_singleton.mpr rfl)⟩
